import Mathlib

set_option maxRecDepth 4000

namespace ETL

/-- An exact rational in lowest terms with positive denominator, standing in
for a Python float.  (A first-class executable fraction type is used so that
every pipeline computation reduces inside the kernel.) -/
structure Flt where
  num : Int
  den : Nat
deriving DecidableEq, Repr, Inhabited

/-- The normalized fraction `n / d` for `d > 0`. -/
def normFlt (n : Int) (d : Nat) : Flt :=
  let g := Nat.gcd n.natAbs d
  if g = 0 then ⟨0, 1⟩ else ⟨n / (g : Int), d / g⟩

/-- The value `m * 10 ^ e` as a normalized fraction. -/
def fltOfSci (m : Int) (e : Int) : Flt :=
  if 0 ≤ e then ⟨m * (10 : Int) ^ e.toNat, 1⟩
  else normFlt m ((10 : Nat) ^ (-e).toNat)

/-- The rational number a fraction denotes (used in specifications only). -/
def fltToRat (f : Flt) : ℚ := (f.num : ℚ) / (f.den : ℚ)

/-- Runtime values flowing through the pipeline, mirroring the Python values
the backend manipulates: JSON scalars, arrays, string-keyed mappings, plus
`vOid` for store-generated ObjectId values.  Python floats are modelled
exactly, as `Flt` fractions. -/
inductive Value : Type where
  | vNull : Value
  | vBool : Bool → Value
  | vInt : Int → Value
  | vFloat : Flt → Value
  | vStr : String → Value
  | vArr : List Value → Value
  | vObj : List (String × Value) → Value
  | vOid : String → Value
deriving Repr, Inhabited

/-- A record is a Python dict: an insertion-ordered association list whose
keys are unique. -/
abbrev Record := List (String × Value)

/-- `d.get(key)`: first (unique) binding of `key`. -/
def lookupKey {α : Type} : List (String × α) → String → Option α
  | [], _ => none
  | (k, v) :: rest, key => if k = key then some v else lookupKey rest key

/-- Python dict assignment `d[key] = v`: overwrite in place if the key is
present, otherwise append at the end (insertion order). -/
def setKey {α : Type} : List (String × α) → String → α → List (String × α)
  | [], key, v => [(key, v)]
  | (k, w) :: rest, key, v =>
    if k = key then (k, v) :: rest else (k, w) :: setKey rest key v

/-- Characters stripped by Python `str.strip()` (ASCII model). -/
def isPySpace (c : Char) : Bool :=
  c = ' ' || c = '\t' || c = '\n' || c = '\r' || c = '\x0b' || c = '\x0c'

def pyStripChars (s : List Char) : List Char :=
  ((s.dropWhile isPySpace).reverse.dropWhile isPySpace).reverse

/-- Python `str.strip()`. -/
def pyStrip (s : String) : String := String.mk (pyStripChars s.data)

/-- ASCII model of Python `str.lower()` on one character. -/
def pyLowerChar (c : Char) : Char :=
  if 'A' ≤ c && c ≤ 'Z' then Char.ofNat (c.toNat + 32) else c

def pyLower (s : String) : String := String.mk (s.data.map pyLowerChar)

/-- Characters kept by the field-name regex class `[a-z0-9]`. -/
def isLowerAlnum (c : Char) : Bool :=
  ('a' ≤ c && c ≤ 'z') || ('0' ≤ c && c ≤ '9')

mutual

/-- `re.sub(r'[^a-z0-9]+', '_', s)`: each maximal run of characters outside
`[a-z0-9]` becomes a single underscore. -/
def subNonAlnum : List Char → List Char
  | [] => []
  | c :: cs =>
    if isLowerAlnum c then c :: subNonAlnum cs else '_' :: subRunSkip cs

/-- Inside a non-alphanumeric run (its single `_` already emitted). -/
def subRunSkip : List Char → List Char
  | [] => []
  | c :: cs =>
    if isLowerAlnum c then c :: subNonAlnum cs else subRunSkip cs

end

/-- `s.strip('_')`. -/
def stripUnderscores (s : List Char) : List Char :=
  ((s.dropWhile (fun c => c = '_')).reverse.dropWhile (fun c => c = '_')).reverse

/-- Worker for underscore collapsing; the flag records whether the previous
kept character was an underscore of the current run. -/
def collapseGo : Bool → List Char → List Char
  | _, [] => []
  | prev, c :: cs =>
    if c = '_' then
      if prev then collapseGo true cs else '_' :: collapseGo true cs
    else c :: collapseGo false cs

/-- `re.sub(r'_+', '_', s)`: collapse runs of underscores. -/
def collapseUnderscores (s : List Char) : List Char := collapseGo false s

/-- `DataCleaner._normalize_field_name`: lowercase, replace special-character
runs with `_`, strip then collapse underscores, defaulting to `"field"`. -/
def normalizeFieldName (s : String) : String :=
  let l1 := s.data.map pyLowerChar
  let l2 := subNonAlnum l1
  let l3 := stripUnderscores l2
  let l4 := collapseUnderscores l3
  if l4 = [] then "field" else String.mk l4

/-- Digit run to a natural number. -/
def digitsToNat (s : List Char) : Nat :=
  s.foldl (fun n c => n * 10 + (c.toNat - '0'.toNat)) 0

/-- Exponent-and-rest continuation of the float grammar: the parsed value is
`±digits(ip ++ fp) * 10 ^ (exp - |fp|)`. -/
def pyFloatExp (neg : Bool) (ip fp : List Char) (r : List Char) : Option Flt :=
  let m : Int := (if neg then -1 else 1) * (digitsToNat (ip ++ fp) : Int)
  match r with
  | [] => some (fltOfSci m (-(fp.length : Int)))
  | c :: r1 =>
    if c = 'e' || c = 'E' then
      let sgnRest : Int × List Char :=
        match r1 with
        | '+' :: r2 => (1, r2)
        | '-' :: r2 => (-1, r2)
        | r2 => (1, r2)
      let eds := sgnRest.2.takeWhile Char.isDigit
      let r3 := sgnRest.2.dropWhile Char.isDigit
      if eds.isEmpty || !r3.isEmpty then none
      else some (fltOfSci m (sgnRest.1 * (digitsToNat eds : Int) - (fp.length : Int)))
    else none

/-- Model of Python `float(s)` on the decimal grammar
`[+-]? (digits [. digits] | . digits | digits .) ([eE][+-]?digits)?`
with exact rational semantics.  The `inf`/`nan` literals and digit-group
underscores accepted by CPython are outside the modelled grammar. -/
def pyParseFloat (s : List Char) : Option Flt :=
  let signRest : Bool × List Char :=
    match s with
    | '+' :: r => (false, r)
    | '-' :: r => (true, r)
    | r => (false, r)
  let ip := signRest.2.takeWhile Char.isDigit
  let r1 := signRest.2.dropWhile Char.isDigit
  match r1 with
  | '.' :: r =>
    let fp := r.takeWhile Char.isDigit
    let r2 := r.dropWhile Char.isDigit
    if ip.isEmpty && fp.isEmpty then none else pyFloatExp signRest.1 ip fp r2
  | _ => if ip.isEmpty then none else pyFloatExp signRest.1 ip [] r1

mutual

/-- `DataCleaner._clean_value`: strip strings, turn the empty string into
null, convert float-parseable strings to int (when integral) or float,
recognise boolean words, and recurse into lists and mappings. -/
def cleanValue : Value → Value
  | .vNull => .vNull
  | .vStr s =>
    let t := pyStrip s
    if t = "" then .vNull
    else
      match pyParseFloat t.data with
      | some q => if q.den = 1 then .vInt q.num else .vFloat q
      | none =>
        let lw := pyLower t
        if lw = "true" || lw = "yes" || lw = "y" then .vBool true
        else if lw = "false" || lw = "no" || lw = "n" then .vBool false
        else .vStr t
  | .vArr xs => .vArr (cleanValueList xs)
  | .vObj ps => .vObj (cleanValuePairs ps)
  | .vBool b => .vBool b
  | .vInt n => .vInt n
  | .vFloat q => .vFloat q
  | .vOid s => .vOid s

/-- The list comprehension of `_clean_value` over a list value. -/
def cleanValueList : List Value → List Value
  | [] => []
  | v :: vs => cleanValue v :: cleanValueList vs

/-- The dict comprehension of `_clean_value` over a mapping value. -/
def cleanValuePairs : List (String × Value) → List (String × Value)
  | [] => []
  | (k, v) :: kvs => (k, cleanValue v) :: cleanValuePairs kvs

end

/-- One pass of `clean_records` over a single record: iterate the items,
assigning the normalized key the cleaned value in a fresh dict. -/
def cleanRecord (r : Record) : Record :=
  r.foldl (fun acc kv => setKey acc (normalizeFieldName kv.1) (cleanValue kv.2)) []

/-- Insert a key/rendered-value pair keeping the list sorted by key
(`json.dumps(..., sort_keys=True)` orders object members by key). -/
def insSorted (p : String × String) : List (String × String) → List (String × String)
  | [] => [p]
  | q :: rest => if p.1 < q.1 then p :: q :: rest else q :: insSorted p rest

def sortPairsByKey (l : List (String × String)) : List (String × String) :=
  l.foldl (fun acc p => insSorted p acc) []

mutual

/-- Canonical serialization modelling `json.dumps(record, sort_keys=True,
default=str)`: objects render their members in sorted key order.  String
escaping is not modelled; only equality of serializations matters. -/
def serValue : Value → String
  | .vNull => "null"
  | .vBool true => "true"
  | .vBool false => "false"
  | .vInt n => toString n
  | .vFloat q => toString q.num ++ "/" ++ toString q.den
  | .vStr s => "\"" ++ s ++ "\""
  | .vOid s => "\"" ++ s ++ "\""
  | .vArr xs => "[" ++ String.intercalate ", " (serValueList xs) ++ "]"
  | .vObj ps =>
    "\x7b" ++
      String.intercalate ", "
        ((sortPairsByKey (serValuePairs ps)).map
          (fun kv => "\"" ++ kv.1 ++ "\": " ++ kv.2)) ++ "\x7d"

def serValueList : List Value → List String
  | [] => []
  | v :: vs => serValue v :: serValueList vs

def serValuePairs : List (String × Value) → List (String × String)
  | [] => []
  | (k, v) :: kvs => (k, serValue v) :: serValuePairs kvs

end

/-- Serialization key of a whole record. -/
def serRecord (r : Record) : String := serValue (Value.vObj r)

/-- `DataCleaner._deduplicate_records` worker: keep a record when its
serialization has not been seen yet, first occurrence wins. -/
def dedupGo : List Record → List String → List Record
  | [], _ => []
  | r :: rs, seen =>
    let key := serRecord r
    if key ∈ seen then dedupGo rs seen else r :: dedupGo rs (key :: seen)

def deduplicateRecords (records : List Record) : List Record := dedupGo records []

/-- `DataCleaner.clean_records`: normalize keys and values of every record,
then deduplicate by canonical serialization. -/
def cleanRecords (records : List Record) : List Record :=
  if records.isEmpty then [] else deduplicateRecords (records.map cleanRecord)

/-- Inferred per-field schema (`type`/`required`/`sample`); `sample` is the
Python value stored, with `vNull` standing for Python `None`. -/
structure FieldSchema where
  type : String
  required : Bool
  sample : Value
deriving Repr, Inhabited

structure CollectionSchema where
  fields : List (String × FieldSchema)
  record_count : Nat
  source_type : String
deriving Repr, Inhabited

structure SourceSchema where
  source_id : String
  version : Nat
  created_at : String
  updated_at : String
  collections : List (String × CollectionSchema)
  data_types_present : List String
deriving Repr, Inhabited

/-- The part of a pipeline fragment dict that schema generation reads:
`fragment['type']`, `fragment.get('cleaned_records', [])` (the empty list
standing for an absent or empty key) and `fragment.get('parsed_data', [])`. -/
structure PipeFragment where
  type : String
  cleaned_records : List Value
  parsed_data : Value
deriving Repr, Inhabited

/-- Python `type(v).__name__` for the values in our model. -/
def pyType : Value → String
  | .vNull => "NoneType"
  | .vBool _ => "bool"
  | .vInt _ => "int"
  | .vFloat _ => "float"
  | .vStr _ => "str"
  | .vArr _ => "list"
  | .vObj _ => "dict"
  | .vOid _ => "ObjectId"

/-- `SchemaManager._infer_type` over the non-null values of a field. -/
def inferType (values : List Value) : String :=
  match values with
  | [] => "unknown"
  | sample :: _ =>
    let types := (values.map pyType).dedup
    if 1 < types.length then
      if "str" ∈ types || "float" ∈ types || "int" ∈ types then "string" else "mixed"
    else
      match sample with
      | .vBool _ => "boolean"
      | .vInt _ => "integer"
      | .vFloat _ => "float"
      | .vStr _ => "string"
      | .vArr _ => "array"
      | .vObj _ => "object"
      | _ => "unknown"

/-- Append one observed value to the per-field value lists
(`field_values[key].append(value)` with dict insertion order). -/
def fvAdd : List (String × List Value) → String → Value → List (String × List Value)
  | [], k, v => [(k, [v])]
  | (k0, vs) :: rest, k, v =>
    if k0 = k then (k0, vs ++ [v]) :: rest else (k0, vs) :: fvAdd rest k v

/-- First loop of `_infer_fields_schema`: collect all fields and their values
in record order, skipping records that are not mappings. -/
def collectFieldValues (records : List Value) : List (String × List Value) :=
  records.foldl
    (fun fv r =>
      match r with
      | .vObj ps => ps.foldl (fun fv kv => fvAdd fv kv.1 kv.2) fv
      | _ => fv) []

/-- Is this value Python `None`? (`v is not None` test). -/
def isNonNull : Value → Bool
  | .vNull => false
  | _ => true

/-- The `FieldSchema` built for one field from its collected `values`:
the null-type case when no non-null value exists, else inferred type,
`required := len(values) == total_records`, and `sample := non_null[0]`. -/
def mkFieldSchema (total : Nat) (values : List Value) : FieldSchema :=
  let nonNull := values.filter isNonNull
  if nonNull.isEmpty then ⟨"null", false, Value.vNull⟩
  else ⟨inferType nonNull, values.length == total, nonNull.headI⟩

/-- `SchemaManager._infer_fields_schema` on one batch of records. -/
def inferFieldsSchema (records : List Value) : List (String × FieldSchema) :=
  (collectFieldValues records).map
    (fun kv => (kv.1, mkFieldSchema records.length kv.2))

/-- `SchemaManager._merge_field_schemas existing new`. -/
def mergeFieldSchemas (existing new : List (String × FieldSchema)) :
    List (String × FieldSchema) :=
  new.foldl
    (fun merged kv =>
      match lookupKey merged kv.1 with
      | some cur =>
        let t :=
          if cur.type = "string" || kv.2.type = "string" then "string"
          else if cur.type ≠ kv.2.type then "mixed"
          else cur.type
        setKey merged kv.1 ⟨t, cur.required && kv.2.required, kv.2.sample⟩
      | none => setKey merged kv.1 ⟨kv.2.type, false, kv.2.sample⟩) existing

/-- `SchemaManager._infer_collections_schema`: group fragments into
`<type>_data` collections, inferring from cleaned records with fallback to
raw parsed data. -/
def inferCollectionsSchema (fragments : List PipeFragment) :
    List (String × CollectionSchema) :=
  fragments.foldl
    (fun collections frag =>
      let recsOpt : Option (List Value) :=
        if !frag.cleaned_records.isEmpty then some frag.cleaned_records
        else
          match frag.parsed_data with
          | .vArr xs => some xs
          | .vObj o => some [Value.vObj o]
          | _ => none
      match recsOpt with
      | none => collections
      | some records =>
        let name := frag.type ++ "_data"
        let fieldsSchema := inferFieldsSchema records
        match lookupKey collections name with
        | some cur =>
          setKey collections name
            ⟨mergeFieldSchemas cur.fields fieldsSchema,
              cur.record_count + records.length, cur.source_type⟩
        | none =>
          setKey collections name ⟨fieldsSchema, records.length, frag.type⟩) []

/-- `SchemaManager._merge_schemas existing new`. -/
def mergeSchemas (existing new : List (String × CollectionSchema)) :
    List (String × CollectionSchema) :=
  new.foldl
    (fun merged kv =>
      match lookupKey merged kv.1 with
      | some cur =>
        setKey merged kv.1
          ⟨mergeFieldSchemas cur.fields kv.2.fields,
            cur.record_count + kv.2.record_count, cur.source_type⟩
      | none => setKey merged kv.1 kv.2) existing

/-- `SchemaManager.generate_schema` as a pure function: the stored current
schema is the `existing` argument, timestamps are passed in, and the
history/current-document writes are the caller's side effects. -/
def generateSchema (source_id : String) (existing : Option SourceSchema)
    (fragments : List PipeFragment) (now : String) : SourceSchema :=
  let collectionsSchema := inferCollectionsSchema fragments
  let dataTypes := (fragments.map (fun f => f.type)).eraseDups
  match existing with
  | some es =>
    ⟨source_id, es.version + 1, es.created_at, now,
      mergeSchemas es.collections collectionsSchema,
      (es.data_types_present ++ dataTypes).eraseDups⟩
  | none => ⟨source_id, 1, now, now, collectionsSchema, dataTypes⟩

mutual

/-- `QueryExecutor._get_fields_from_query`: all field keys referenced in a
filter or projection.  The Python function returns a set; this returns the
collected keys as a list, used only through membership and emptiness, which
agree with the set semantics. -/
def getFieldsFromQuery : List (String × Value) → List String
  | [] => []
  | (k, v) :: rest => getFieldsEntry k v ++ getFieldsFromQuery rest

/-- Whether the key starts with the operator sigil, at the character
level (Python startswith with the dollar sign). -/
def startsWithDollar (k : String) : Bool :=
  match k.data with
  | '$' :: _ => true
  | _ => false

/-- One `key: value` item: operator keys (`$`-prefixed) descend into list
values; mapping values contribute the key itself; otherwise the key is
contributed unless it is `_id`. -/
def getFieldsEntry (k : String) : Value → List String
  | .vArr items =>
    if startsWithDollar k then getFieldsList items
    else if k = "_id" then [] else [k]
  | .vObj _ => if startsWithDollar k then [] else [k]
  | .vNull => if startsWithDollar k then [] else if k = "_id" then [] else [k]
  | .vBool _ => if startsWithDollar k then [] else if k = "_id" then [] else [k]
  | .vInt _ => if startsWithDollar k then [] else if k = "_id" then [] else [k]
  | .vFloat _ => if startsWithDollar k then [] else if k = "_id" then [] else [k]
  | .vStr _ => if startsWithDollar k then [] else if k = "_id" then [] else [k]
  | .vOid _ => if startsWithDollar k then [] else if k = "_id" then [] else [k]

/-- Recurse into the mapping items of an operator list (`$or`, `$and`). -/
def getFieldsList : List Value → List String
  | [] => []
  | .vObj o :: rest => getFieldsFromQuery o ++ getFieldsList rest
  | _ :: rest => getFieldsList rest

end

mutual

/-- `QueryExecutor._serialize_mongo_results` on one record: ObjectId values
become strings, nested mappings recurse, and inside lists only mapping items
recurse (other items, ObjectIds included, pass through unchanged). -/
def serializeRecord : List (String × Value) → List (String × Value)
  | [] => []
  | (k, v) :: rest => (k, serializeFieldValue v) :: serializeRecord rest

def serializeFieldValue : Value → Value
  | .vOid s => Value.vStr s
  | .vObj o => Value.vObj (serializeRecord o)
  | .vArr items => Value.vArr (serializeItems items)
  | .vNull => Value.vNull
  | .vBool b => Value.vBool b
  | .vInt n => Value.vInt n
  | .vFloat q => Value.vFloat q
  | .vStr s => Value.vStr s

def serializeItems : List Value → List Value
  | [] => []
  | .vObj o :: rest => Value.vObj (serializeRecord o) :: serializeItems rest
  | v :: rest => v :: serializeItems rest

end

def serializeMongoResults (results : List Record) : List Record :=
  results.map serializeRecord

/-- Python `x == 'name'` where `x` is an arbitrary JSON value. -/
def isStrEq (v : Value) (name : String) : Bool :=
  match v with
  | .vStr s => s = name
  | _ => false

/-- `query_obj.get(key, default)` where the value must be a mapping; the
Python code raises on a non-mapping value, which is outside the modelled
domain (claims about well-formed queries carry that hypothesis). -/
def getObjD (v : Option Value) (dflt : List (String × Value)) : List (String × Value) :=
  match v with
  | some (.vObj o) => o
  | some _ => []
  | none => dflt

/-- `QueryExecutor._execute_mongo_query` with the document store abstracted:
`find name filter projection` and `aggregate name pipeline` stand for the
per-collection store calls; `aggregate` returns `none` when the store raises
(the code logs and skips that collection). -/
def execMongoQuery (q : List (String × Value)) (schema : SourceSchema)
    (find : String → List (String × Value) → List (String × Value) → List Record)
    (aggregate : String → Value → Option (List Record)) : List Record :=
  let operation := (lookupKey q "operation").getD (Value.vStr "find")
  if schema.collections.isEmpty then []
  else
    let allResults :=
      if isStrEq operation "find" then
        let filterQuery := getObjD (lookupKey q "filter") []
        let projection := getObjD (lookupKey q "projection") [("_id", Value.vInt 0)]
        let fieldsInFilter := getFieldsFromQuery filterQuery
        let fieldsInProjection := getFieldsFromQuery projection
        schema.collections.foldl
          (fun acc kv =>
            if !fieldsInFilter.isEmpty &&
                !(fieldsInFilter.all (fun f => (kv.2.fields.map Prod.fst).contains f)) then
              acc
            else if !fieldsInProjection.isEmpty &&
                !(fieldsInProjection.any (fun f => (kv.2.fields.map Prod.fst).contains f)) then
              acc
            else acc ++ find kv.1 filterQuery projection) []
      else if isStrEq operation "aggregate" then
        let pipeline := (lookupKey q "pipeline").getD (Value.vArr [])
        schema.collections.foldl
          (fun acc kv =>
            match aggregate kv.1 pipeline with
            | some rs => acc ++ rs
            | none => acc) []
      else []
    serializeMongoResults allResults

/-- Python `text.split('\n')`. -/
def splitLines : List Char → List (List Char)
  | [] => [[]]
  | c :: cs =>
    if c = '\n' then [] :: splitLines cs
    else
      match splitLines cs with
      | l :: ls => (c :: l) :: ls
      | [] => [[c]]

/-- JSON whitespace accepted between tokens by `json.loads`. -/
def isJsonWs (c : Char) : Bool :=
  c = ' ' || c = '\t' || c = '\n' || c = '\r'

def skipWs (s : List Char) : List Char := s.dropWhile isJsonWs

/-- Body of a JSON string after the opening quote; `\uXXXX` escapes and
control characters are rejected (the former are outside the model). -/
def jsonStringGo : List Char → List Char → Option (String × List Char)
  | [], _ => none
  | '"' :: r, acc => some (String.mk acc.reverse, r)
  | '\\' :: e :: r, acc =>
    if e = '"' then jsonStringGo r ('"' :: acc)
    else if e = '\\' then jsonStringGo r ('\\' :: acc)
    else if e = '/' then jsonStringGo r ('/' :: acc)
    else if e = 'b' then jsonStringGo r ('\x08' :: acc)
    else if e = 'f' then jsonStringGo r ('\x0c' :: acc)
    else if e = 'n' then jsonStringGo r ('\n' :: acc)
    else if e = 'r' then jsonStringGo r ('\r' :: acc)
    else if e = 't' then jsonStringGo r ('\t' :: acc)
    else none
  | c :: r, acc => if c.toNat < 32 then none else jsonStringGo r (c :: acc)

def jsonString (s : List Char) : Option (String × List Char) := jsonStringGo s []

/-- Number value end-game: optional exponent, else the bare int/float. -/
def jsonNumExp (neg : Bool) (ip fp : List Char) (isFloat : Bool) (r : List Char) :
    Option (Value × List Char) :=
  let m : Int := (if neg then -1 else 1) * (digitsToNat (ip ++ fp) : Int)
  let base : Option (Value × List Char) :=
    if isFloat then some (Value.vFloat (fltOfSci m (-(fp.length : Int))), r)
    else some (Value.vInt ((if neg then -1 else 1) * (digitsToNat ip : Int)), r)
  match r with
  | [] => base
  | c :: r1 =>
    if c = 'e' || c = 'E' then
      let sgnRest : Int × List Char :=
        match r1 with
        | '+' :: r2 => (1, r2)
        | '-' :: r2 => (-1, r2)
        | r2 => (1, r2)
      let eds := sgnRest.2.takeWhile Char.isDigit
      let r3 := sgnRest.2.dropWhile Char.isDigit
      if eds.isEmpty then none
      else
        some
          (Value.vFloat
            (fltOfSci m (sgnRest.1 * (digitsToNat eds : Int) - (fp.length : Int))), r3)
    else base

/-- JSON number grammar: `-?(0|[1-9][0-9]*)(.digits)?([eE][+-]?digits)?`. -/
def jsonNumber (s : List Char) : Option (Value × List Char) :=
  let negRest : Bool × List Char :=
    match s with
    | '-' :: r => (true, r)
    | r => (false, r)
  let ip := negRest.2.takeWhile Char.isDigit
  let r1 := negRest.2.dropWhile Char.isDigit
  if ip.isEmpty then none
  else if 1 < ip.length && ip.headI = '0' then none
  else
    match r1 with
    | '.' :: r2 =>
      let fp := r2.takeWhile Char.isDigit
      let r3 := r2.dropWhile Char.isDigit
      if fp.isEmpty then none else jsonNumExp negRest.1 ip fp true r3
    | _ => jsonNumExp negRest.1 ip [] false r1

mutual

/-- Fuel-indexed strict JSON value parser modelling `json.loads`; the fuel
is an upper bound on nesting and member count, supplied generously by
`jsonLoads`.  The empty-object/empty-array cases are inlined so that every
recursive call structurally decreases the fuel. -/
def jsonValue : Nat → List Char → Option (Value × List Char)
  | 0, _ => none
  | Nat.succ fuel, s =>
    match skipWs s with
    | '{' :: r =>
      (match skipWs r with
      | '}' :: r2 => some (Value.vObj [], r2)
      | _ => jsonMembers fuel r [])
    | '[' :: r =>
      (match skipWs r with
      | ']' :: r2 => some (Value.vArr [], r2)
      | _ => jsonElems fuel r [])
    | '"' :: r => (jsonString r).map (fun p => (Value.vStr p.1, p.2))
    | 't' :: 'r' :: 'u' :: 'e' :: r => some (Value.vBool true, r)
    | 'f' :: 'a' :: 'l' :: 's' :: 'e' :: r => some (Value.vBool false, r)
    | 'n' :: 'u' :: 'l' :: 'l' :: r => some (Value.vNull, r)
    | r => jsonNumber r

def jsonMembers : Nat → List Char → List (String × Value) → Option (Value × List Char)
  | 0, _, _ => none
  | Nat.succ fuel, s, acc =>
    match skipWs s with
    | '"' :: r =>
      match jsonString r with
      | none => none
      | some (key, r1) =>
        match skipWs r1 with
        | ':' :: r2 =>
          match jsonValue fuel r2 with
          | none => none
          | some (v, r3) =>
            match skipWs r3 with
            | ',' :: r4 => jsonMembers fuel r4 (setKey acc key v)
            | '}' :: r4 => some (Value.vObj (setKey acc key v), r4)
            | _ => none
        | _ => none
    | _ => none

def jsonElems : Nat → List Char → List Value → Option (Value × List Char)
  | 0, _, _ => none
  | Nat.succ fuel, s, acc =>
    match jsonValue fuel s with
    | none => none
    | some (v, r) =>
      match skipWs r with
      | ',' :: r1 => jsonElems fuel r1 (acc ++ [v])
      | ']' :: r1 => some (Value.vArr (acc ++ [v]), r1)
      | _ => none

end

/-- `json.loads`: parse one value and require only whitespace after it. -/
def jsonLoads (s : List Char) : Option Value :=
  match jsonValue (s.length + 1) s with
  | some (v, rest) => if (skipWs rest).isEmpty then some v else none
  | none => none

/-- Characters of the regex class `\s`. -/
def isRegexSpace (c : Char) : Bool :=
  c = ' ' || c = '\t' || c = '\n' || c = '\r' || c = '\x0b' || c = '\x0c'

mutual

/-- Scanner for `re.sub(r',\s*(\x7d|\x5d)', r'\1', text)`: a comma (and the
whitespace after it) directly preceding a closing brace or bracket is
dropped; scanning resumes after each match or non-match exactly as `re.sub`
does. -/
def fixGo : List Char → List Char
  | [] => []
  | c :: rest =>
    if c = ',' then fixAfterComma [','] rest else c :: fixGo rest

/-- After a comma: buffer the whitespace run; on a closing bracket emit only
the bracket; otherwise emit the buffer and rescan from the current char
(inlined: a comma restarts comma-state, anything else is copied). -/
def fixAfterComma (buf : List Char) : List Char → List Char
  | [] => buf.reverse
  | c :: rest =>
    if isRegexSpace c then fixAfterComma (c :: buf) rest
    else if c = '}' || c = ']' then c :: fixGo rest
    else if c = ',' then buf.reverse ++ fixAfterComma [','] rest
    else buf.reverse ++ (c :: fixGo rest)

end

def fixJson (s : List Char) : List Char := fixGo s

/-- A JSON fragment produced by `DataExtractor._extract_json_fragments`. -/
structure JsonFragment where
  type : String
  start_line : Int
  end_line : Int
  content : List Char
  parsed_data : Value
  note : Option String
deriving Repr, Inhabited

/-- Mutable scanner state of the JSON line scanner. -/
structure ScanState where
  in_json : Bool
  json_start : Int
  brace : Int
  bracket : Int
  current : List (List Char)
deriving Repr, Inhabited

/-- The per-character loop over one stripped line: brace/bracket counting and
fragment-start detection (`[` opens a fragment only on lines starting with
`[`). -/
def scanLineChars (startsBr : Bool) (i : Nat) (st : ScanState) (cs : List Char) :
    ScanState :=
  cs.foldl
    (fun st c =>
      if c = '{' then
        let st1 :=
          if !st.in_json then
            { st with in_json := true, json_start := (i : Int), current := [] }
          else st
        { st1 with brace := st1.brace + 1 }
      else if c = '}' then { st with brace := st.brace - 1 }
      else if c = '[' then
        let st1 :=
          if !st.in_json && startsBr then
            { st with in_json := true, json_start := (i : Int), current := [] }
          else st
        { st1 with bracket := st1.bracket + 1 }
      else if c = ']' then { st with bracket := st.bracket - 1 }
      else st) st

/-- One line of `_extract_json_fragments`: scan the stripped characters,
accumulate the raw line while inside a fragment, and on balance zero close
the fragment — strict parse first, then the trailing-comma repair, then
silent discard. -/
def processJsonLine (acc : ScanState × List JsonFragment) (iLine : Nat × List Char) :
    ScanState × List JsonFragment :=
  let st0 := acc.1
  let frags := acc.2
  let i := iLine.1
  let line := iLine.2
  let stripped := pyStripChars line
  let startsBr := match stripped with | '[' :: _ => true | _ => false
  let st := scanLineChars startsBr i st0 stripped
  if st.in_json then
    let st1 := { st with current := st.current ++ [line] }
    if st1.brace = 0 && st1.bracket = 0 then
      let jsonText := List.intercalate ['\n'] st1.current
      let newFrags :=
        match jsonLoads jsonText with
        | some v =>
          frags ++ [⟨"json", st1.json_start + 1, (i : Int) + 1, jsonText, v, none⟩]
        | none =>
          let fixed := fixJson jsonText
          match jsonLoads fixed with
          | some v =>
            frags ++
              [⟨"json", st1.json_start + 1, (i : Int) + 1, fixed, v,
                some "malformed_fixed"⟩]
          | none => frags
      ({ st1 with in_json := false, json_start := -1, current := [] }, newFrags)
    else (st1, frags)
  else (st, frags)

/-- `DataExtractor._extract_json_fragments` over the whole text. -/
def extractJsonFragments (text : List Char) : List JsonFragment :=
  ((splitLines text).enum.foldl processJsonLine (⟨false, -1, 0, 0, []⟩, [])).2

/-- Stable insertion used to model `fragments.sort(key=lambda x: x['start_line'])`. -/
def insertByStart (f : JsonFragment) : List JsonFragment → List JsonFragment
  | [] => [f]
  | g :: rest =>
    if f.start_line < g.start_line then f :: g :: rest else g :: insertByStart f rest

def sortFragments (l : List JsonFragment) : List JsonFragment :=
  l.foldl (fun acc f => insertByStart f acc) []

def dedupFragsGo : List JsonFragment → List (String × Int × Int) → List JsonFragment
  | [], _ => []
  | f :: fs, seen =>
    let key := (f.type, f.start_line, f.end_line)
    if key ∈ seen then dedupFragsGo fs seen else f :: dedupFragsGo fs (key :: seen)

/-- `DataExtractor._deduplicate_fragments`: sort by start line, then drop
later fragments sharing `(type, start_line, end_line)`. -/
def deduplicateFragments (frags : List JsonFragment) : List JsonFragment :=
  if frags.isEmpty then [] else dedupFragsGo (sortFragments frags) []

/-! Observation helpers used to state the claims. -/

/-- The `required` flag recorded for a field. -/
def requiredOf (fields : List (String × FieldSchema)) (f : String) : Option Bool :=
  (lookupKey fields f).map (fun fs => fs.required)

/-- The `sample` recorded for a field. -/
def sampleOf (fields : List (String × FieldSchema)) (f : String) : Option Value :=
  (lookupKey fields f).map (fun fs => fs.sample)

/-- The `type` recorded for a field of a collection of a source schema. -/
def fieldTypeOf (s : SourceSchema) (coll f : String) : Option String :=
  match lookupKey s.collections coll with
  | some ci => (lookupKey ci.fields f).map (fun fs => fs.type)
  | none => none

/-- The rational a cleaned numeric value denotes (claim language). -/
def ratOfValue (v : Value) : Option ℚ :=
  match v with
  | .vInt n => some (n : ℚ)
  | .vFloat f => some (fltToRat f)
  | _ => none

/-- Does this record (a mapping) carry the key `f` at all, null included? -/
def recordHasKey (r : Value) (f : String) : Bool :=
  match r with
  | .vObj ps => (lookupKey ps f).isSome
  | _ => false

/-- Does this record carry a non-null value for `f`? -/
def recordHasNonNull (r : Value) (f : String) : Bool :=
  match r with
  | .vObj ps =>
    match lookupKey ps f with
    | some v => isNonNull v
    | none => false
  | _ => false

/-- The non-null value this record carries for `f`, if any. -/
def nonNullValueOf (r : Value) (f : String) : Option Value :=
  match r with
  | .vObj ps =>
    match lookupKey ps f with
    | some v => if isNonNull v then some v else none
    | none => none
  | _ => none

/-- The values contributed to `field_values[f]` by one mapping's items. -/
def pairVals (f : String) (kvs : List (String × Value)) : List Value :=
  kvs.filterMap (fun kv => if kv.1 = f then some kv.2 else none)

/-- The values contributed to `field_values[f]` by one record. -/
def recVals (f : String) : Value → List Value
  | .vObj ps => pairVals f ps
  | _ => []

/-- All values observed for field `f` across the batch, in record order. -/
def fieldVals (f : String) (records : List Value) : List Value :=
  records.flatMap (recVals f)

/-- The value (null included) a mapping record carries for `f`, if any. -/
def keyValOf (r : Value) (f : String) : Option Value :=
  match r with
  | .vObj ps => lookupKey ps f
  | _ => none

/-- How a new batch of observed values extends a possibly-absent entry of
`field_values` (specification device for the collection loop). -/
def combineVals (o : Option (List Value)) (l : List Value) : Option (List Value) :=
  match o, l with
  | none, [] => none
  | none, l => some l
  | some vs, l => some (vs ++ l)

/-- A record all of whose keys are distinct (it is a dict), already
canonically named, with already-clean values. -/
def RecordCanonical (r : Record) : Prop :=
  (r.map Prod.fst).Nodup ∧
    ∀ kv ∈ r, normalizeFieldName kv.1 = kv.1 ∧ cleanValue kv.2 = kv.2

/-- Eligibility condition of the router claim: the filter-field set is empty
or a subset of the collection's field names, and the projection-field set is
empty or intersects them. -/
def claimEligible (fieldsInFilter fieldsInProjection : List String)
    (ci : CollectionSchema) : Bool :=
  (fieldsInFilter.isEmpty ||
      fieldsInFilter.all (fun f => (ci.fields.map Prod.fst).contains f)) &&
    (fieldsInProjection.isEmpty ||
      fieldsInProjection.any (fun f => (ci.fields.map Prod.fst).contains f))

mutual

/-- The claim's reading of the set of field names referenced in a filter or
projection, following the claim's words rather than the code: operator keys
(the dollar sigil) are boolean combinators descended into, and every other
key is a referenced field name — `_id` included, whatever its value.  It
differs from the code's `_get_fields_from_query`, which drops a key named
`_id` whenever its value is not a mapping. -/
def claimFields : List (String × Value) → List String
  | [] => []
  | (k, v) :: rest => claimFieldsEntry k v ++ claimFields rest

def claimFieldsEntry (k : String) : Value → List String
  | .vArr items => if startsWithDollar k then claimFieldsList items else [k]
  | .vObj _ => if startsWithDollar k then [] else [k]
  | .vNull => if startsWithDollar k then [] else [k]
  | .vBool _ => if startsWithDollar k then [] else [k]
  | .vInt _ => if startsWithDollar k then [] else [k]
  | .vFloat _ => if startsWithDollar k then [] else [k]
  | .vStr _ => if startsWithDollar k then [] else [k]
  | .vOid _ => if startsWithDollar k then [] else [k]

def claimFieldsList : List Value → List String
  | [] => []
  | .vObj o :: rest => claimFields o ++ claimFieldsList rest
  | _ :: rest => claimFieldsList rest

end

/-- The claim's projection-field set: the referenced names excluding `_id`. -/
def claimProjFields (p : List (String × Value)) : List String :=
  (claimFields p).filter (fun f => !(f == "_id"))

/-- Whether an optional query value is absent or a mapping: the domain on
which the embedded executor is faithful (Python raises on a non-mapping
filter or projection and surfaces the error to the caller). -/
def isObjOrAbsent : Option Value → Bool
  | some (.vObj _) => true
  | none => true
  | some _ => false

/-! Concrete inputs appearing in the claims. -/

/-- The text of the JSON-extraction scenario. -/
def c7Input : List Char := ("noise\n\x7b\"a\": 1, \"b\": 2,\x7d\nmore noise").data

/-- Batch with an explicit null next to a non-null value for `a`. -/
def c1Batch : List Value :=
  [Value.vObj [("a", Value.vNull)], Value.vObj [("a", Value.vInt 1)]]

/-- Batch with two non-null values for `a`. -/
def c2Batch : List Value :=
  [Value.vObj [("a", Value.vInt 1)], Value.vObj [("a", Value.vInt 2)]]

/-- First ingest of the type-widening scenario: the fragment for
`\x7b"x": 1\x7d`, its records cleaned by the pipeline. -/
def c3Frag1 : PipeFragment :=
  ⟨"json", (cleanRecords [[("x", Value.vInt 1)]]).map Value.vObj,
    Value.vObj [("x", Value.vInt 1)]⟩

/-- Second ingest: the fragment for `\x7b"x": "1.5"\x7d`, cleaned. -/
def c3Frag2 : PipeFragment :=
  ⟨"json", (cleanRecords [[("x", Value.vStr "1.5")]]).map Value.vObj,
    Value.vObj [("x", Value.vStr "1.5")]⟩

def c3Schema1 : SourceSchema := generateSchema "src" none [c3Frag1] "t1"

def c3Schema2 : SourceSchema := generateSchema "src" (some c3Schema1) [c3Frag2] "t2"

/-- Schema of the router-exclusion scenario. -/
def c4Schema : SourceSchema :=
  ⟨"src", 1, "t", "t",
    [("json_data", ⟨[("price", ⟨"float", true, Value.vNull⟩)], 1, "json"⟩),
      ("csv_data", ⟨[("name", ⟨"string", true, Value.vNull⟩)], 1, "csv"⟩)],
    ["json", "csv"]⟩

/-- Query of the router-exclusion scenario:
`\x7b"operation":"find","filter":\x7b"price":\x7b"$gt":100\x7d\x7d\x7d`. -/
def c4Query : List (String × Value) :=
  [("operation", Value.vStr "find"),
    ("filter", Value.vObj [("price", Value.vObj [("$gt", Value.vInt 100)])])]

/-- Router counterexample query: a find filtering on a scalar `_id`,
`\x7b"operation":"find","filter":\x7b"_id":"abc"\x7d\x7d`. -/
def c4CexQuery : List (String × Value) :=
  [("operation", Value.vStr "find"), ("filter", Value.vObj [("_id", Value.vStr "abc")])]

/-! ### Dictionary lemmas -/

theorem lookupKey_setKey_self {α : Type} (l : List (String × α)) (k : String) (v : α) :
    lookupKey (setKey l k v) k = some v := by
  induction l with
  | nil => simp [setKey, lookupKey]
  | cons p rest ih =>
    obtain ⟨k0, w⟩ := p
    by_cases h : k0 = k
    · subst h
      simp [setKey, lookupKey]
    · simp [setKey, lookupKey, h, ih]

theorem lookupKey_setKey_ne {α : Type} (l : List (String × α)) (k f : String) (v : α)
    (h : k ≠ f) : lookupKey (setKey l k v) f = lookupKey l f := by
  induction l with
  | nil => simp [setKey, lookupKey, h]
  | cons p rest ih =>
    obtain ⟨k0, w⟩ := p
    by_cases h0 : k0 = k
    · subst h0
      simp [setKey, lookupKey, h]
    · simp [setKey, lookupKey, h0, ih]

/-! ### Claim theorems (interleaved with their helper lemmas) -/

/-- C5: a successful schema-inference call yields version 1 when no prior
schema exists for the source, and the prior version plus exactly one
otherwise. -/
theorem c5_version_increments :
    ∀ (sid now : String) (frags : List PipeFragment),
      (generateSchema sid none frags now).version = 1 ∧
      ∀ es : SourceSchema,
        (generateSchema sid (some es) frags now).version = es.version + 1 :=
  fun _ _ _ => ⟨rfl, fun _ => rfl⟩

/-- C3 counterexample: ingesting `\x7b"x": 1\x7d` then `\x7b"x": "1.5"\x7d`
does NOT give field `x` the merged type `string`. -/
theorem c3_counterexample :
    fieldTypeOf c3Schema2 "json_data" "x" ≠ some "string" := by decide

/-- C3 amended: the merged type of `x` is `mixed`, because value cleaning
turns the string `"1.5"` into the float `1.5` before inference, and
`integer`/`float` widen to `mixed`. -/
theorem c3_merged_type_mixed :
    fieldTypeOf c3Schema2 "json_data" "x" = some "mixed" := by decide

/-- C7: the text `noise \x7b"a": 1, "b": 2,\x7d more noise` yields exactly
one JSON fragment, parsed after trailing-comma repair as the mapping
`a ↦ 1, b ↦ 2`. -/
theorem c7_single_fragment_with_repair :
    deduplicateFragments (extractJsonFragments c7Input) =
      [⟨"json", 2, 2, ("\x7b\"a\": 1, \"b\": 2\x7d").data,
        Value.vObj [("a", Value.vInt 1), ("b", Value.vInt 2)],
        some "malformed_fixed"⟩] := rfl

/-- C1 counterexample: in the batch `[\x7ba: null\x7d, \x7ba: 1\x7d]` the
field `a` gets `required = true` although the first record carries only an
explicit null for it, so `required` is not equivalent to every record
carrying a non-null value. -/
theorem c1_counterexample :
    ¬ (requiredOf (inferFieldsSchema c1Batch) "a" = some true ↔
        c1Batch.all (fun r => recordHasNonNull r "a") = true) := by decide

/-- C2 counterexample: in the batch `[\x7ba: 1\x7d, \x7ba: 2\x7d]` the
recorded sample is `1`, not the most recently observed non-null value `2`. -/
theorem c2_counterexample :
    sampleOf (inferFieldsSchema c2Batch) "a" ≠
      (c2Batch.reverse.filterMap (fun r => nonNullValueOf r "a")).head? := by
  intro h
  have h1 : sampleOf (inferFieldsSchema c2Batch) "a" = some (Value.vInt 1) := rfl
  have h2 :
      (c2Batch.reverse.filterMap (fun r => nonNullValueOf r "a")).head? =
        some (Value.vInt 2) := rfl
  have h3 := h1.symm.trans (h.trans h2)
  injection h3 with h4
  injection h4 with h5
  exact absurd h5 (by decide)

/-! Helper lemmas for the field-inference claims. -/

theorem lookupKey_map {α β : Type} (g : α → β) (l : List (String × α)) (f : String) :
    lookupKey (l.map (fun kv => (kv.1, g kv.2))) f = (lookupKey l f).map g := by
  induction l with
  | nil => rfl
  | cons p rest ih =>
    obtain ⟨k, v⟩ := p
    by_cases h : k = f <;> simp [lookupKey, h, ih]

theorem combineVals_none (l : List Value) :
    combineVals none l = if l.isEmpty then none else some l := by
  cases l <;> rfl

theorem combineVals_nil (o : Option (List Value)) : combineVals o [] = o := by
  cases o <;> simp [combineVals]

theorem combineVals_assoc (o : Option (List Value)) (l1 l2 : List Value) :
    combineVals (combineVals o l1) l2 = combineVals o (l1 ++ l2) := by
  cases o <;> cases l1 <;> cases l2 <;> simp [combineVals]

theorem lookupKey_fvAdd (fv : List (String × List Value)) (k f : String) (v : Value) :
    lookupKey (fvAdd fv k v) f =
      if k = f then some (((lookupKey fv f).getD []) ++ [v]) else lookupKey fv f := by
  induction fv with
  | nil => by_cases h : k = f <;> simp [fvAdd, lookupKey, h]
  | cons p rest ih =>
    obtain ⟨k0, vs⟩ := p
    by_cases h0 : k0 = k
    · subst h0
      by_cases h1 : k0 = f <;> simp [fvAdd, lookupKey, h1]
    · by_cases h1 : k0 = f
      · subst h1
        have hk : ¬ k = k0 := fun e => h0 e.symm
        simp [fvAdd, lookupKey, h0, hk]
      · simp [fvAdd, lookupKey, h0, h1, ih]

theorem lookupKey_foldl_fvAdd (kvs : List (String × Value))
    (fv : List (String × List Value)) (f : String) :
    lookupKey (kvs.foldl (fun acc kv => fvAdd acc kv.1 kv.2) fv) f =
      combineVals (lookupKey fv f) (pairVals f kvs) := by
  induction kvs generalizing fv with
  | nil => simp [pairVals, combineVals_nil]
  | cons kv rest ih =>
    obtain ⟨k, v⟩ := kv
    simp only [List.foldl_cons]
    rw [ih, lookupKey_fvAdd]
    by_cases h : k = f
    · subst h
      cases hfv : lookupKey fv k <;>
        simp [combineVals, pairVals, List.filterMap_cons, hfv]
    · simp [pairVals, List.filterMap_cons, h]

theorem lookupKey_collect (records : List Value) (f : String) :
    lookupKey (collectFieldValues records) f = combineVals none (fieldVals f records) := by
  have main :
      ∀ (rs : List Value) (fv : List (String × List Value)),
        lookupKey
            (rs.foldl
              (fun fv r =>
                match r with
                | .vObj ps => ps.foldl (fun fv kv => fvAdd fv kv.1 kv.2) fv
                | _ => fv) fv) f =
          combineVals (lookupKey fv f) (fieldVals f rs) := by
    intro rs
    induction rs with
    | nil => intro fv; simp [fieldVals, combineVals_nil]
    | cons r rest ih =>
      intro fv
      have hcons : fieldVals f (r :: rest) = recVals f r ++ fieldVals f rest := by
        simp [fieldVals]
      cases r with
      | vObj ps =>
        simp only [List.foldl_cons]
        rw [ih, lookupKey_foldl_fvAdd, combineVals_assoc, hcons]
        rfl
      | vNull => simp only [List.foldl_cons]; rw [ih, hcons]; rfl
      | vBool b => simp only [List.foldl_cons]; rw [ih, hcons]; rfl
      | vInt n => simp only [List.foldl_cons]; rw [ih, hcons]; rfl
      | vFloat q => simp only [List.foldl_cons]; rw [ih, hcons]; rfl
      | vStr s => simp only [List.foldl_cons]; rw [ih, hcons]; rfl
      | vArr xs => simp only [List.foldl_cons]; rw [ih, hcons]; rfl
      | vOid s => simp only [List.foldl_cons]; rw [ih, hcons]; rfl
  exact main records []

theorem lookupKey_infer (records : List Value) (f : String) :
    lookupKey (inferFieldsSchema records) f =
      (combineVals none (fieldVals f records)).map (mkFieldSchema records.length) := by
  unfold inferFieldsSchema
  rw [lookupKey_map, lookupKey_collect]

theorem pairVals_nil_of_not_mem (f : String) (ps : List (String × Value))
    (h : f ∉ ps.map Prod.fst) : pairVals f ps = [] := by
  induction ps with
  | nil => rfl
  | cons p rest ih =>
    obtain ⟨k, v⟩ := p
    simp only [List.map_cons, List.mem_cons, not_or] at h
    have hk : ¬ k = f := fun e => h.1 e.symm
    simp only [pairVals, List.filterMap_cons, hk, if_neg hk]
    exact ih h.2

theorem pairVals_eq_lookup (f : String) (ps : List (String × Value))
    (h : (ps.map Prod.fst).Nodup) : pairVals f ps = (lookupKey ps f).toList := by
  induction ps with
  | nil => rfl
  | cons p rest ih =>
    obtain ⟨k, v⟩ := p
    simp only [List.map_cons, List.nodup_cons] at h
    by_cases hk : k = f
    · subst hk
      have h0 : pairVals k rest = [] := pairVals_nil_of_not_mem k rest h.1
      simp only [pairVals] at h0
      simp only [pairVals, List.filterMap_cons, lookupKey, if_pos rfl, h0]
      rfl
    · have h2 := ih h.2
      simp only [pairVals, List.filterMap_cons, if_neg hk, lookupKey]
      simpa [pairVals] using h2

theorem recVals_eq_toList (f : String) (r : Value)
    (h : ∀ ps, r = Value.vObj ps → (ps.map Prod.fst).Nodup) :
    recVals f r = (keyValOf r f).toList := by
  cases r with
  | vObj ps => exact pairVals_eq_lookup f ps (h ps rfl)
  | vNull => rfl
  | vBool b => rfl
  | vInt n => rfl
  | vFloat q => rfl
  | vStr s => rfl
  | vArr xs => rfl
  | vOid s => rfl

theorem fieldVals_eq_filterMap (f : String) (records : List Value)
    (h : ∀ ps, Value.vObj ps ∈ records → (ps.map Prod.fst).Nodup) :
    fieldVals f records = records.filterMap (fun r => keyValOf r f) := by
  induction records with
  | nil => rfl
  | cons r rs ih =>
    have hcons : fieldVals f (r :: rs) = recVals f r ++ fieldVals f rs := by
      simp [fieldVals]
    rw [hcons, recVals_eq_toList f r (fun ps hps => h ps (hps ▸ List.mem_cons_self r rs)),
      ih (fun ps hps => h ps (List.mem_cons_of_mem _ hps))]
    cases hkv : keyValOf r f <;> simp [List.filterMap_cons, hkv]

theorem filterMap_length_eq_iff {α β : Type} (g : α → Option β) (l : List α) :
    (l.filterMap g).length = l.length ↔ ∀ a ∈ l, (g a).isSome := by
  induction l with
  | nil => simp
  | cons a l ih =>
    cases hga : g a with
    | none =>
      simp only [List.filterMap_cons, hga, List.length_cons]
      have hle := List.length_filterMap_le g l
      constructor
      · intro hlen
        exact absurd hlen (by omega)
      · intro hall
        have := hall a (List.mem_cons_self a l)
        rw [hga] at this
        simp at this
    | some b =>
      simp only [List.filterMap_cons, hga, List.length_cons, Nat.add_right_cancel_iff, ih]
      constructor
      · intro hall a' ha'
        rcases List.mem_cons.mp ha' with h1 | h1
        · subst h1; rw [hga]; rfl
        · exact hall a' h1
      · intro hall a' ha'
        exact hall a' (List.mem_cons_of_mem _ ha')

theorem filterMap_any {α β : Type} (g : α → Option β) (p : β → Bool) (l : List α) :
    (l.filterMap g).any p = l.any (fun a => ((g a).map p).getD false) := by
  induction l with
  | nil => rfl
  | cons a l ih => cases hga : g a <;> simp [List.filterMap_cons, hga, ih]

theorem filterMap_filter {α β : Type} (g : α → Option β) (p : β → Bool) (l : List α) :
    (l.filterMap g).filter p =
      l.filterMap (fun a => (g a).bind (fun v => if p v then some v else none)) := by
  induction l with
  | nil => rfl
  | cons a l ih =>
    cases hga : g a with
    | none => simp [List.filterMap_cons, hga, ih]
    | some v =>
      by_cases hv : p v <;> simp [List.filterMap_cons, hga, hv, ih, List.filter_cons]

theorem filter_isEmpty_eq_not_any {α : Type} (p : α → Bool) (l : List α) :
    (l.filter p).isEmpty = !(l.any p) := by
  induction l with
  | nil => rfl
  | cons a l ih => by_cases h : p a <;> simp [List.filter_cons, h, ih]

theorem recordHasKey_eq (r : Value) (f : String) :
    recordHasKey r f = (keyValOf r f).isSome := by
  cases r <;> rfl

theorem recordHasNonNull_eq (r : Value) (f : String) :
    recordHasNonNull r f = ((keyValOf r f).map isNonNull).getD false := by
  cases r with
  | vObj ps => cases h : lookupKey ps f <;> simp [recordHasNonNull, keyValOf, h]
  | vNull => rfl
  | vBool b => rfl
  | vInt n => rfl
  | vFloat q => rfl
  | vStr s => rfl
  | vArr xs => rfl
  | vOid s => rfl

theorem nonNullValueOf_eq (r : Value) (f : String) :
    nonNullValueOf r f =
      (keyValOf r f).bind (fun v => if isNonNull v then some v else none) := by
  cases r with
  | vObj ps => cases h : lookupKey ps f <;> simp [nonNullValueOf, keyValOf, h]
  | vNull => rfl
  | vBool b => rfl
  | vInt n => rfl
  | vFloat q => rfl
  | vStr s => rfl
  | vArr xs => rfl
  | vOid s => rfl

theorem records_any_nonNull_eq (records : List Value) (f : String)
    (hfm : fieldVals f records = records.filterMap (fun r => keyValOf r f)) :
    (fieldVals f records).any isNonNull =
      records.any (fun r => recordHasNonNull r f) := by
  rw [hfm, filterMap_any]
  congr 1
  funext r
  exact (recordHasNonNull_eq r f).symm

/-- C1 amended: a field's `required` is true iff every record of the batch
is a mapping carrying the field key — a record with an explicit null still
counts as carrying it — and at least one record carries a non-null value. -/
theorem c1_required_iff :
    ∀ (records : List Value) (f : String) (fs : FieldSchema),
      (∀ ps, Value.vObj ps ∈ records → (ps.map Prod.fst).Nodup) →
      lookupKey (inferFieldsSchema records) f = some fs →
      (fs.required = true ↔
        (records.all (fun r => recordHasKey r f) = true ∧
          records.any (fun r => recordHasNonNull r f) = true)) := by
  intro records f fs hnd hlk
  rw [lookupKey_infer, combineVals_none] at hlk
  by_cases hE : (fieldVals f records).isEmpty = true
  · rw [if_pos hE] at hlk
    simp at hlk
  · rw [if_neg hE] at hlk
    simp only [Option.map_some', Option.some.injEq] at hlk
    subst hlk
    have hfm := fieldVals_eq_filterMap f records hnd
    unfold mkFieldSchema
    by_cases hnn : ((fieldVals f records).filter isNonNull).isEmpty = true
    · rw [if_pos hnn]
      have hany : records.any (fun r => recordHasNonNull r f) = false := by
        rw [filter_isEmpty_eq_not_any] at hnn
        rw [← records_any_nonNull_eq records f hfm]
        cases hc : (fieldVals f records).any isNonNull
        · rfl
        · rw [hc] at hnn
          simp at hnn
      simp [hany]
    · rw [if_neg hnn]
      have hany : records.any (fun r => recordHasNonNull r f) = true := by
        rw [filter_isEmpty_eq_not_any] at hnn
        rw [← records_any_nonNull_eq records f hfm]
        cases hc : (fieldVals f records).any isNonNull
        · rw [hc] at hnn
          simp at hnn
        · rfl
      constructor
      · intro hreq
        refine ⟨?_, hany⟩
        have hlen : (fieldVals f records).length = records.length := by
          simpa using hreq
        rw [hfm] at hlen
        have hall := (filterMap_length_eq_iff _ _).mp hlen
        rw [List.all_eq_true]
        intro r hr
        rw [recordHasKey_eq]
        exact hall r hr
      · rintro ⟨hall, _⟩
        show ((fieldVals f records).length == records.length) = true
        simp only [beq_iff_eq]
        rw [hfm]
        apply (filterMap_length_eq_iff _ _).mpr
        intro r hr
        have hk := List.all_eq_true.mp hall r hr
        rw [recordHasKey_eq] at hk
        exact hk

/-- C1 witness: a singleton batch with a non-null `a`. -/
theorem c1_witness :
    ((⟨"integer", true, Value.vInt 1⟩ : FieldSchema).required = true ↔
      ([Value.vObj [("a", Value.vInt 1)]].all (fun r => recordHasKey r "a") = true ∧
        [Value.vObj [("a", Value.vInt 1)]].any (fun r => recordHasNonNull r "a") = true)) :=
  c1_required_iff [Value.vObj [("a", Value.vInt 1)]] "a" ⟨"integer", true, Value.vInt 1⟩
    (by
      intro ps hps
      simp at hps
      subst hps
      simp) rfl

/-- C2 amended: when some record of the batch carries a non-null value for
the field, the recorded `sample` is the FIRST-observed non-null value within
the batch (not the most recent one). -/
theorem c2_sample_is_first_non_null :
    ∀ (records : List Value) (f : String) (fs : FieldSchema),
      (∀ ps, Value.vObj ps ∈ records → (ps.map Prod.fst).Nodup) →
      lookupKey (inferFieldsSchema records) f = some fs →
      records.any (fun r => recordHasNonNull r f) = true →
      some fs.sample = (records.filterMap (fun r => nonNullValueOf r f)).head? := by
  intro records f fs hnd hlk hany
  rw [lookupKey_infer, combineVals_none] at hlk
  by_cases hE : (fieldVals f records).isEmpty = true
  · rw [if_pos hE] at hlk
    simp at hlk
  · rw [if_neg hE] at hlk
    simp only [Option.map_some', Option.some.injEq] at hlk
    subst hlk
    have hfm := fieldVals_eq_filterMap f records hnd
    have hfilter :
        (fieldVals f records).filter isNonNull =
          records.filterMap (fun r => nonNullValueOf r f) := by
      rw [hfm, filterMap_filter]
      congr 1
      funext r
      exact (nonNullValueOf_eq r f).symm
    have hne : ((fieldVals f records).filter isNonNull).isEmpty = false := by
      rw [filter_isEmpty_eq_not_any, records_any_nonNull_eq records f hfm, hany]
      rfl
    unfold mkFieldSchema
    rw [if_neg (by simp [hne])]
    rw [← hfilter]
    rcases hc : (fieldVals f records).filter isNonNull with _ | ⟨v0, rest⟩
    · rw [hc] at hne
      simp at hne
    · simp

/-- C2 witness: a batch whose first non-null `a` value is `7`. -/
theorem c2_witness :
    some (FieldSchema.sample ⟨"integer", true, Value.vInt 7⟩) =
      ([Value.vObj [("a", Value.vNull)], Value.vObj [("a", Value.vInt 7)]].filterMap
        (fun r => nonNullValueOf r "a")).head? :=
  c2_sample_is_first_non_null
    [Value.vObj [("a", Value.vNull)], Value.vObj [("a", Value.vInt 7)]] "a"
    ⟨"integer", true, Value.vInt 7⟩
    (by
      intro ps hps
      simp at hps
      rcases hps with h | h <;> subst h <;> simp) rfl rfl

/-! Helper lemmas for the merge claims. -/

theorem mergeFieldSchemas_required_false :
    ∀ (new existing : List (String × FieldSchema)) (f : String) (fs' : FieldSchema),
      lookupKey (mergeFieldSchemas existing new) f = some fs' →
      (lookupKey existing f = none ∨
        ∃ fs, lookupKey existing f = some fs ∧ fs.required = false) →
      fs'.required = false := by
  intro new
  induction new with
  | nil =>
    intro existing f fs' hlk hw
    simp only [mergeFieldSchemas, List.foldl_nil] at hlk
    rcases hw with h | ⟨fs, hfs, hreq⟩
    · rw [h] at hlk
      exact Option.noConfusion hlk
    · rw [hfs] at hlk
      injection hlk with h'
      exact h' ▸ hreq
  | cons kv rest ih =>
    intro existing f fs' hlk hw
    have hstep :
        mergeFieldSchemas existing (kv :: rest) =
          mergeFieldSchemas
            (match lookupKey existing kv.1 with
            | some cur =>
              setKey existing kv.1
                ⟨if cur.type = "string" || kv.2.type = "string" then "string"
                  else if cur.type ≠ kv.2.type then "mixed" else cur.type,
                  cur.required && kv.2.required, kv.2.sample⟩
            | none => setKey existing kv.1 ⟨kv.2.type, false, kv.2.sample⟩) rest := rfl
    rw [hstep] at hlk
    cases hcur : lookupKey existing kv.1 with
    | some cur =>
      rw [hcur] at hlk
      apply ih _ f fs' hlk
      by_cases hf : kv.1 = f
      · subst hf
        right
        refine ⟨_, lookupKey_setKey_self _ _ _, ?_⟩
        rcases hw with h | ⟨fs, hfs, hreq⟩
        · rw [h] at hcur
          exact Option.noConfusion hcur
        · rw [hfs] at hcur
          injection hcur with h'
          show (cur.required && kv.2.required) = false
          rw [← h', hreq]
          exact Bool.false_and _
      · rcases hw with h | ⟨fs, hfs, hreq⟩
        · left
          rw [lookupKey_setKey_ne _ _ _ _ hf]
          exact h
        · right
          exact ⟨fs, by rw [lookupKey_setKey_ne _ _ _ _ hf]; exact hfs, hreq⟩
    | none =>
      rw [hcur] at hlk
      apply ih _ f fs' hlk
      by_cases hf : kv.1 = f
      · subst hf
        right
        exact ⟨_, lookupKey_setKey_self _ _ _, rfl⟩
      · rcases hw with h | ⟨fs, hfs, hreq⟩
        · left
          rw [lookupKey_setKey_ne _ _ _ _ hf]
          exact h
        · right
          exact ⟨fs, by rw [lookupKey_setKey_ne _ _ _ _ hf]; exact hfs, hreq⟩

theorem mergeFieldSchemas_preserves :
    ∀ (new existing : List (String × FieldSchema)) (f : String) (fs : FieldSchema),
      lookupKey existing f = some fs →
      ∃ fs', lookupKey (mergeFieldSchemas existing new) f = some fs' := by
  intro new
  induction new with
  | nil =>
    intro existing f fs h
    exact ⟨fs, by simpa [mergeFieldSchemas] using h⟩
  | cons kv rest ih =>
    intro existing f fs h
    have hstep :
        mergeFieldSchemas existing (kv :: rest) =
          mergeFieldSchemas
            (match lookupKey existing kv.1 with
            | some cur =>
              setKey existing kv.1
                ⟨if cur.type = "string" || kv.2.type = "string" then "string"
                  else if cur.type ≠ kv.2.type then "mixed" else cur.type,
                  cur.required && kv.2.required, kv.2.sample⟩
            | none => setKey existing kv.1 ⟨kv.2.type, false, kv.2.sample⟩) rest := rfl
    rw [hstep]
    cases hcur : lookupKey existing kv.1 with
    | some cur =>
      by_cases hf : kv.1 = f
      · subst hf
        exact ih _ kv.1 _ (lookupKey_setKey_self _ _ _)
      · exact ih _ f fs (by rw [lookupKey_setKey_ne _ _ _ _ hf]; exact h)
    | none =>
      by_cases hf : kv.1 = f
      · subst hf
        exact ih _ kv.1 _ (lookupKey_setKey_self _ _ _)
      · exact ih _ f fs (by rw [lookupKey_setKey_ne _ _ _ _ hf]; exact h)

theorem mergeSchemas_required_false :
    ∀ (new existing : List (String × CollectionSchema)) (c f : String)
      (ci : CollectionSchema) (fs : FieldSchema),
      lookupKey existing c = some ci → lookupKey ci.fields f = some fs →
      fs.required = false →
      ∀ (ci' : CollectionSchema) (fs' : FieldSchema),
        lookupKey (mergeSchemas existing new) c = some ci' →
        lookupKey ci'.fields f = some fs' → fs'.required = false := by
  intro new
  induction new with
  | nil =>
    intro existing c f ci fs hc hf hreq ci' fs' hc' hf'
    simp only [mergeSchemas, List.foldl_nil] at hc'
    rw [hc] at hc'
    injection hc' with h'
    rw [← h'] at hf'
    rw [hf] at hf'
    injection hf' with h''
    exact h'' ▸ hreq
  | cons kv rest ih =>
    intro existing c f ci fs hc hf hreq ci' fs' hc' hf'
    have hstep :
        mergeSchemas existing (kv :: rest) =
          mergeSchemas
            (match lookupKey existing kv.1 with
            | some cur =>
              setKey existing kv.1
                ⟨mergeFieldSchemas cur.fields kv.2.fields,
                  cur.record_count + kv.2.record_count, cur.source_type⟩
            | none => setKey existing kv.1 kv.2) rest := rfl
    rw [hstep] at hc'
    by_cases hkc : kv.1 = c
    · subst hkc
      rw [hc] at hc'
      have hmerged :=
        mergeFieldSchemas_preserves kv.2.fields ci.fields f fs hf
      obtain ⟨fs2, hfs2⟩ := hmerged
      have hreq2 : fs2.required = false :=
        mergeFieldSchemas_required_false kv.2.fields ci.fields f fs2 hfs2
          (Or.inr ⟨fs, hf, hreq⟩)
      exact ih _ kv.1 f _ fs2 (lookupKey_setKey_self _ _ _) hfs2 hreq2 ci' fs' hc' hf'
    · cases hcur : lookupKey existing kv.1 with
      | some cur =>
        rw [hcur] at hc'
        exact ih _ c f ci fs
          (by rw [lookupKey_setKey_ne _ _ _ _ hkc]; exact hc) hf hreq ci' fs' hc' hf'
      | none =>
        rw [hcur] at hc'
        exact ih _ c f ci fs
          (by rw [lookupKey_setKey_ne _ _ _ _ hkc]; exact hc) hf hreq ci' fs' hc' hf'

/-- C6: the `required` flag only weakens across merges: a field whose
`required` is false in the existing field schema (or which is brand-new to
the merge) has `required = false` after `_merge_field_schemas`; and through
`_merge_schemas`, a field of an existing collection whose `required` is
false stays false in the merged schema. -/
theorem c6_required_monotone :
    (∀ (existing new : List (String × FieldSchema)) (f : String) (fs' : FieldSchema),
        lookupKey (mergeFieldSchemas existing new) f = some fs' →
        (lookupKey existing f = none ∨
          ∃ fs, lookupKey existing f = some fs ∧ fs.required = false) →
        fs'.required = false) ∧
    (∀ (existing new : List (String × CollectionSchema)) (c f : String)
        (ci : CollectionSchema) (fs : FieldSchema) (ci' : CollectionSchema)
        (fs' : FieldSchema),
        lookupKey existing c = some ci → lookupKey ci.fields f = some fs →
        fs.required = false →
        lookupKey (mergeSchemas existing new) c = some ci' →
        lookupKey ci'.fields f = some fs' → fs'.required = false) :=
  ⟨fun existing new f fs' h1 h2 =>
      mergeFieldSchemas_required_false new existing f fs' h1 h2,
    fun existing new c f ci fs ci' fs' h1 h2 h3 h4 h5 =>
      mergeSchemas_required_false new existing c f ci fs h1 h2 h3 ci' fs' h4 h5⟩

/-- C6 witness: merging `required = false` with a `required = true` batch
leaves the flag false. -/
theorem c6_witness :
    (⟨"integer", false, Value.vInt 1⟩ : FieldSchema).required = false :=
  c6_required_monotone.1 [("a", ⟨"integer", false, Value.vNull⟩)]
    [("a", ⟨"integer", true, Value.vInt 1⟩)] "a" ⟨"integer", false, Value.vInt 1⟩ rfl
    (Or.inr ⟨⟨"integer", false, Value.vNull⟩, rfl, rfl⟩)

/-- C8: a string whose stripped form parses as a float cleans to an integer
when the parsed number has no fractional part and to a float otherwise, and
the cleaned value is numerically equal to the parsed number; `"4.0"` cleans
to the integer `4`, and the empty and whitespace-only strings clean to
null. -/
theorem c8_numeric_string_cleaning :
    (∀ (s : String) (q : Flt), pyParseFloat (pyStrip s).data = some q →
      cleanValue (Value.vStr s) =
        (if q.den = 1 then Value.vInt q.num else Value.vFloat q) ∧
      ratOfValue (cleanValue (Value.vStr s)) = some (fltToRat q)) ∧
    cleanValue (Value.vStr "4.0") = Value.vInt 4 ∧
    cleanValue (Value.vStr "") = Value.vNull ∧
    cleanValue (Value.vStr "   ") = Value.vNull := by
  refine ⟨?_, rfl, rfl, rfl⟩
  intro s q h
  have hne : ¬ (pyStrip s = "") := by
    intro he
    rw [he] at h
    have h0 : pyParseFloat ("" : String).data = none := rfl
    rw [h0] at h
    exact Option.noConfusion h
  have h1 :
      cleanValue (Value.vStr s) =
        (if q.den = 1 then Value.vInt q.num else Value.vFloat q) := by
    simp only [cleanValue]
    rw [if_neg hne, h]
  refine ⟨h1, ?_⟩
  rw [h1]
  by_cases hden : q.den = 1
  · rw [if_pos hden]
    simp [ratOfValue, fltToRat, hden]
  · rw [if_neg hden]
    rfl

/-- C8 witness: the string `"2.5"` parses to `5/2` and cleans to a float. -/
theorem c8_witness :
    cleanValue (Value.vStr "2.5") =
        (if (⟨5, 2⟩ : Flt).den = 1 then Value.vInt (⟨5, 2⟩ : Flt).num
          else Value.vFloat ⟨5, 2⟩) ∧
      ratOfValue (cleanValue (Value.vStr "2.5")) = some (fltToRat ⟨5, 2⟩) :=
  c8_numeric_string_cleaning.1 "2.5" ⟨5, 2⟩ (by decide)

/-! Helper lemmas for the cleaning-idempotence claim. -/

theorem setKey_append_of_none {α : Type} (acc : List (String × α)) (k : String) (v : α)
    (h : lookupKey acc k = none) : setKey acc k v = acc ++ [(k, v)] := by
  induction acc with
  | nil => rfl
  | cons p rest ih =>
    obtain ⟨k0, w⟩ := p
    by_cases hk : k0 = k
    · rw [hk] at h
      simp [lookupKey] at h
    · simp only [lookupKey, if_neg hk] at h
      simp [setKey, hk, ih h]

theorem lookupKey_append_right {α : Type} (l1 l2 : List (String × α)) (f : String)
    (h : lookupKey l1 f = none) : lookupKey (l1 ++ l2) f = lookupKey l2 f := by
  induction l1 with
  | nil => rfl
  | cons p rest ih =>
    obtain ⟨k0, w⟩ := p
    by_cases hk : k0 = f
    · rw [hk] at h
      simp [lookupKey] at h
    · simp only [lookupKey, if_neg hk] at h
      simp only [List.cons_append, lookupKey, if_neg hk]
      exact ih h

theorem foldl_setKey_append (r : Record) :
    ∀ acc : Record,
      (∀ kv ∈ r, lookupKey acc kv.1 = none) → (r.map Prod.fst).Nodup →
      r.foldl (fun acc kv => setKey acc kv.1 kv.2) acc = acc ++ r := by
  induction r with
  | nil => intro acc _ _; simp
  | cons kv rest ih =>
    intro acc hnone hnd
    simp only [List.map_cons, List.nodup_cons] at hnd
    simp only [List.foldl_cons]
    rw [setKey_append_of_none acc kv.1 kv.2 (hnone kv (List.mem_cons_self kv rest))]
    rw [ih (acc ++ [(kv.1, kv.2)])
      (fun kv' hkv' => by
        rw [lookupKey_append_right _ _ _ (hnone kv' (List.mem_cons_of_mem _ hkv'))]
        have hne : kv.1 ≠ kv'.1 := by
          intro he
          exact hnd.1 (by rw [he]; exact List.mem_map_of_mem Prod.fst hkv')
        simp [lookupKey, hne]) hnd.2]
    simp

theorem cleanRecord_of_canonical (r : Record) (h : RecordCanonical r) :
    cleanRecord r = r := by
  unfold cleanRecord
  have hbody :
      r.foldl (fun acc kv => setKey acc (normalizeFieldName kv.1) (cleanValue kv.2)) [] =
        r.foldl (fun acc kv => setKey acc kv.1 kv.2) [] := by
    have hgen :
        ∀ (l : List (String × Value)) (acc : Record),
          (∀ kv ∈ l, normalizeFieldName kv.1 = kv.1 ∧ cleanValue kv.2 = kv.2) →
          l.foldl (fun acc kv => setKey acc (normalizeFieldName kv.1) (cleanValue kv.2)) acc =
            l.foldl (fun acc kv => setKey acc kv.1 kv.2) acc := by
      intro l
      induction l with
      | nil => intro acc _; rfl
      | cons kv rest ih =>
        intro acc hl
        have hk := hl kv (List.mem_cons_self kv rest)
        simp only [List.foldl_cons, hk.1, hk.2]
        exact ih _ (fun kv' h' => hl kv' (List.mem_cons_of_mem _ h'))
    exact hgen r [] h.2
  rw [hbody, foldl_setKey_append r [] (fun kv _ => rfl) h.1]
  rfl

theorem dedupGo_subset :
    ∀ (l : List Record) (seen : List String) (r : Record), r ∈ dedupGo l seen → r ∈ l := by
  intro l
  induction l with
  | nil => intro seen r h; exact absurd h (by simp [dedupGo])
  | cons a rest ih =>
    intro seen r h
    simp only [dedupGo] at h
    by_cases hk : serRecord a ∈ seen
    · rw [if_pos hk] at h
      exact List.mem_cons_of_mem _ (ih seen r h)
    · rw [if_neg hk] at h
      rcases List.mem_cons.mp h with h1 | h1
      · exact h1 ▸ List.mem_cons_self a rest
      · exact List.mem_cons_of_mem _ (ih _ r h1)

theorem dedupGo_idem :
    ∀ (l : List Record) (seen : List String),
      dedupGo (dedupGo l seen) seen = dedupGo l seen := by
  intro l
  induction l with
  | nil => intro seen; rfl
  | cons a rest ih =>
    intro seen
    by_cases hk : serRecord a ∈ seen
    · simp only [dedupGo, if_pos hk]
      exact ih seen
    · simp only [dedupGo, if_neg hk]
      rw [ih (serRecord a :: seen)]

/-- C9: on a batch of records that are already in canonical form (distinct,
canonically-named keys and already-clean values), record cleaning is
idempotent. -/
theorem c9_clean_idempotent :
    ∀ records : List Record, (∀ r ∈ records, RecordCanonical r) →
      cleanRecords (cleanRecords records) = cleanRecords records := by
  have hmap :
      ∀ (l : List Record), (∀ r ∈ l, RecordCanonical r) → l.map cleanRecord = l := by
    intro l hl
    induction l with
    | nil => rfl
    | cons a t ih =>
      simp only [List.map_cons,
        cleanRecord_of_canonical a (hl a (List.mem_cons_self a t)),
        ih (fun r hr => hl r (List.mem_cons_of_mem _ hr))]
  intro records hcan
  rcases hrec : records with _ | ⟨r0, rs⟩
  · rfl
  · have hcan' : ∀ r ∈ r0 :: rs, RecordCanonical r := hrec ▸ hcan
    have h1 : cleanRecords (r0 :: rs) = deduplicateRecords (r0 :: rs) := by
      unfold cleanRecords
      rw [if_neg (by simp), hmap _ hcan']
    have h2 : ∀ r ∈ deduplicateRecords (r0 :: rs), RecordCanonical r := fun r hr =>
      hcan' r (dedupGo_subset _ _ r hr)
    rw [h1]
    rcases hD : deduplicateRecords (r0 :: rs) with _ | ⟨d0, ds⟩
    · rfl
    · unfold cleanRecords
      rw [if_neg (by simp),
        hmap (d0 :: ds) (fun r hr => h2 r (by rw [hD]; exact hr)), ← hD]
      unfold deduplicateRecords
      exact dedupGo_idem _ []

/-- C9 witness: a canonical singleton batch. -/
theorem c9_witness :
    cleanRecords (cleanRecords [[("a", Value.vInt 1)]]) =
      cleanRecords [[("a", Value.vInt 1)]] :=
  c9_clean_idempotent [[("a", Value.vInt 1)]]
    (by
      intro r hr
      simp at hr
      subst hr
      refine ⟨by simp, ?_⟩
      intro kv hkv
      simp at hkv
      subst hkv
      exact ⟨rfl, rfl⟩)

/-! Helper lemmas for the router claims. -/

theorem foldl_router {α β : Type} (g : α → List β) (c1 c2 : α → Bool) :
    ∀ (l : List α) (acc : List β),
      l.foldl
          (fun acc x => if c1 x then acc else if c2 x then acc else acc ++ g x) acc =
        acc ++ (l.filter (fun x => !c1 x && !c2 x)).flatMap g := by
  intro l
  induction l with
  | nil => intro acc; simp
  | cons a t ih =>
    intro acc
    by_cases h1 : c1 a
    · simp [List.foldl_cons, h1, ih, List.filter_cons]
    · by_cases h2 : c2 a
      · simp [List.foldl_cons, h1, h2, ih, List.filter_cons]
      · simp [List.foldl_cons, h1, h2, ih, List.filter_cons]

theorem router_pred_eq (ff fp : List String) (ci : CollectionSchema) :
    (!(!ff.isEmpty && !(ff.all (fun f => (ci.fields.map Prod.fst).contains f))) &&
        !(!fp.isEmpty && !(fp.any (fun f => (ci.fields.map Prod.fst).contains f)))) =
      claimEligible ff fp ci := by
  simp [claimEligible, Bool.not_and, Bool.not_not]

/-- C4 counterexample: on the find query filtering on a scalar `_id`, the
code drops `_id` from the filter-field set, computes an empty set, and
queries BOTH collections — although the claim's referenced-field set is
`[_id]`, which is nonempty and a subset of neither collection's field
names, so under the claim's condition no collection is eligible. -/
theorem c4_counterexample :
    execMongoQuery c4CexQuery c4Schema (fun n _ _ => [[("coll", Value.vStr n)]])
        (fun _ _ => none) =
      [[("coll", Value.vStr "json_data")], [("coll", Value.vStr "csv_data")]] ∧
    claimFields (getObjD (lookupKey c4CexQuery "filter") []) = ["_id"] ∧
    ((c4Schema.collections.filter
        (fun kv =>
          claimEligible (claimFields (getObjD (lookupKey c4CexQuery "filter") []))
            (claimProjFields
              (getObjD (lookupKey c4CexQuery "projection") [("_id", Value.vInt 0)]))
            kv.2)).map Prod.fst) = [] :=
  ⟨rfl, rfl, rfl⟩

/-- C4 amended: for every find query whose filter and projection, when
present, are mappings, the router queries exactly the collections eligible
under the CODE's field extraction — operator keys are descended into, a key
with a mapping value is kept even when it is `_id`, and a key with a
non-mapping value is kept unless it is `_id`, so a scalar `_id` is excluded
from the filter set as well, not only from the projection — with
eligibility as in the claim: filter fields empty or a subset of the
collection's field names, and projection fields empty or intersecting them;
and on the concrete two-collection schema with the `price > 100` filter,
the eligible collections are exactly `json_data`. -/
theorem c4_router_eligibility :
    (∀ (q : List (String × Value)) (schema : SourceSchema)
        (find : String → List (String × Value) → List (String × Value) → List Record)
        (aggregate : String → Value → Option (List Record)),
        (lookupKey q "operation" = some (Value.vStr "find") ∨
          lookupKey q "operation" = none) →
        isObjOrAbsent (lookupKey q "filter") = true →
        isObjOrAbsent (lookupKey q "projection") = true →
        execMongoQuery q schema find aggregate =
          serializeMongoResults
            ((schema.collections.filter
                  (fun kv =>
                    claimEligible
                      (getFieldsFromQuery (getObjD (lookupKey q "filter") []))
                      (getFieldsFromQuery
                        (getObjD (lookupKey q "projection") [("_id", Value.vInt 0)]))
                      kv.2)).flatMap
              (fun kv =>
                find kv.1 (getObjD (lookupKey q "filter") [])
                  (getObjD (lookupKey q "projection") [("_id", Value.vInt 0)])))) ∧
    ((c4Schema.collections.filter
          (fun kv =>
            claimEligible (getFieldsFromQuery (getObjD (lookupKey c4Query "filter") []))
              (getFieldsFromQuery
                (getObjD (lookupKey c4Query "projection") [("_id", Value.vInt 0)]))
              kv.2)).map Prod.fst) = ["json_data"] := by
  constructor
  · intro q schema find aggregate hop hwff hwfp
    unfold execMongoQuery
    have hopeq : (lookupKey q "operation").getD (Value.vStr "find") = Value.vStr "find" := by
      rcases hop with h | h <;> rw [h] <;> rfl
    rw [hopeq]
    have hfind : isStrEq (Value.vStr "find") "find" = true := rfl
    by_cases hE : schema.collections.isEmpty = true
    · rw [if_pos hE]
      have h0 : schema.collections = [] := List.isEmpty_iff.mp hE
      rw [h0]
      rfl
    · rw [if_neg hE, hfind, if_pos rfl]
      rw [foldl_router
        (fun kv =>
          find kv.1 (getObjD (lookupKey q "filter") [])
            (getObjD (lookupKey q "projection") [("_id", Value.vInt 0)]))
        (fun kv =>
          !(getFieldsFromQuery (getObjD (lookupKey q "filter") [])).isEmpty &&
            !((getFieldsFromQuery (getObjD (lookupKey q "filter") [])).all
              (fun f => (kv.2.fields.map Prod.fst).contains f)))
        (fun kv =>
          !(getFieldsFromQuery
              (getObjD (lookupKey q "projection") [("_id", Value.vInt 0)])).isEmpty &&
            !((getFieldsFromQuery
                (getObjD (lookupKey q "projection") [("_id", Value.vInt 0)])).any
              (fun f => (kv.2.fields.map Prod.fst).contains f)))
        schema.collections []]
      rw [List.nil_append]
      have hfilt :=
        List.filter_congr
          (fun (kv : String × CollectionSchema) (_ : kv ∈ schema.collections) =>
            router_pred_eq (getFieldsFromQuery (getObjD (lookupKey q "filter") []))
              (getFieldsFromQuery
                (getObjD (lookupKey q "projection") [("_id", Value.vInt 0)])) kv.2)
      rw [hfilt]
  · rfl

/-- C4 witness: applying the router characterization to the concrete
schema, query and a store stub. -/
theorem c4_witness :
    execMongoQuery c4Query c4Schema (fun n _ _ => [[("coll", Value.vStr n)]])
        (fun _ _ => none) =
      serializeMongoResults
        ((c4Schema.collections.filter
              (fun kv =>
                claimEligible
                  (getFieldsFromQuery (getObjD (lookupKey c4Query "filter") []))
                  (getFieldsFromQuery
                    (getObjD (lookupKey c4Query "projection") [("_id", Value.vInt 0)]))
                  kv.2)).flatMap
          (fun kv =>
            (fun n _ _ => [[("coll", Value.vStr n)]]) kv.1
              (getObjD (lookupKey c4Query "filter") [])
              (getObjD (lookupKey c4Query "projection") [("_id", Value.vInt 0)]))) :=
  c4_router_eligibility.1 c4Query c4Schema (fun n _ _ => [[("coll", Value.vStr n)]])
    (fun _ _ => none) (Or.inl rfl) rfl rfl

/-- C10: a query object with no `operation` key at all is executed exactly
as the identical query with `operation` set to `"find"`. -/
theorem c10_missing_operation_defaults_to_find :
    ∀ (q : List (String × Value)) (schema : SourceSchema)
      (find : String → List (String × Value) → List (String × Value) → List Record)
      (aggregate : String → Value → Option (List Record)),
      lookupKey q "operation" = none →
      execMongoQuery q schema find aggregate =
        execMongoQuery (setKey q "operation" (Value.vStr "find")) schema find aggregate := by
  intro q schema find aggregate h
  unfold execMongoQuery
  rw [h, lookupKey_setKey_self,
    lookupKey_setKey_ne q "operation" "filter" (Value.vStr "find") (by decide),
    lookupKey_setKey_ne q "operation" "projection" (Value.vStr "find") (by decide),
    lookupKey_setKey_ne q "operation" "pipeline" (Value.vStr "find") (by decide)]
  rfl

/-- C10 witness: a concrete query without `operation`. -/
theorem c10_witness :
    execMongoQuery [("filter", Value.vObj [])]
        ⟨"s", 1, "t", "t",
          [("json_data", ⟨[("a", ⟨"integer", true, Value.vNull⟩)], 1, "json"⟩)],
          ["json"]⟩
        (fun n _ _ => [[("coll", Value.vStr n)]]) (fun _ _ => none) =
      execMongoQuery (setKey [("filter", Value.vObj [])] "operation" (Value.vStr "find"))
        ⟨"s", 1, "t", "t",
          [("json_data", ⟨[("a", ⟨"integer", true, Value.vNull⟩)], 1, "json"⟩)],
          ["json"]⟩
        (fun n _ _ => [[("coll", Value.vStr n)]]) (fun _ _ => none) :=
  c10_missing_operation_defaults_to_find [("filter", Value.vObj [])] _ _ _ rfl

end ETL
